import Mathlib

/-!
Verification development for the `enzoe-price-service` repository: a shallow
embedding, in Lean 4, of the ENTSO-E day-ahead price ingestion pipeline
(normalizer, rate-limited client, fetch orchestrator, repository) together
with theorems settling the frozen specification claims.

Modelling conventions:
* `chrono::DateTime<Utc>` instants and `chrono::Duration` values are embedded
  as `Int` numbers of seconds (chrono's timeline has no leap seconds).
* `rust_decimal::Decimal` monetary values are embedded as `ℚ`.  Decimal
  sums and the decimal division `sum / count` performed by the aggregation
  are exact at the group sizes that occur (2 or 4 per hour), so `ℚ` is a
  faithful carrier for everything the claims quantify over.
* RFC-3339 timestamp-string parsing (`parse_timestamp`) is abstracted: a
  `Period` carries the already-parsed `start`/`end_` instants.  None of the
  claims concerns the string syntax of timestamps.
* the `iso8601_duration` crate fallback of `parse_resolution` (external
  library code) is not modelled; every claim exercises only the literal
  fast path `PT15M/PT30M/PT60M/P1D/P7D/P1Y` that the Rust function
  short-circuits before reaching the fallback.
* `f64` values flowing through `Point.price_amount` are embedded as `ℚ`;
  the claims settled over them concern counts, positions, timestamps and
  the forward-fill data flow, none of which depends on float rounding.
-/

/-- EntsoeError, from src/entsoe/error.rs.  `HttpError` carries the display
string of the underlying `reqwest::Error`; `PeriodCountMismatch` keeps its
three fields. -/
inductive EntsoeError where
  | NoData : EntsoeError
  | RateLimited : EntsoeError
  | TemporaryUnavailable : String → EntsoeError
  | XmlParseError : String → EntsoeError
  | InvalidResponse : String → EntsoeError
  | HttpError : String → EntsoeError
  | InvalidResolution : String → EntsoeError
  | TimestampParseError : String → EntsoeError
  | MissingFirstPeriod : EntsoeError
  | PeriodCountMismatch : Nat → String → String → EntsoeError
deriving DecidableEq, Repr

/-- EntsoeError::is_transient, from src/entsoe/error.rs lines 40-44:
`matches!(self, Self::RateLimited | Self::TemporaryUnavailable(_))`. -/
def EntsoeError.is_transient : EntsoeError → Bool
  | .RateLimited => true
  | .TemporaryUnavailable _ => true
  | _ => false

/-- Price, from src/models/price.rs.  Timestamps are seconds since the epoch,
`price_kwh` is the `rust_decimal::Decimal` value embedded in `ℚ`. -/
structure Price where
  timestamp : Int
  bidding_zone : String
  price_kwh : ℚ
  currency : String
  resolution : String
  fetched_at : Int
deriving DecidableEq, Repr

instance : Inhabited Price := ⟨⟨0, "", 0, "", "", 0⟩⟩

/-- Price::from_mwh, from src/models/price.rs lines 19-36.  The Rust code
computes `Decimal::from_str(&(price_mwh / 1000.0).to_string())`; the division
and the float-to-string round trip are embedded as exact division on `ℚ`.
`Utc::now()` is passed explicitly as `now`. -/
def Price.from_mwh (timestamp : Int) (bidding_zone : String) (price_mwh : ℚ)
    (resolution : String) (now : Int) : Price :=
  { timestamp := timestamp
    bidding_zone := bidding_zone
    price_kwh := price_mwh / 1000
    currency := "EUR"
    resolution := resolution
    fetched_at := now }

/-- Point, from src/entsoe/xml.rs: a 1-based position and a price in EUR/MWh. -/
structure Point where
  position : Nat
  price_amount : ℚ
deriving DecidableEq, Repr

/-- Period, from src/entsoe/xml.rs.  The `timeInterval` strings are carried
here as their parsed instants `start`/`end_` (see the module conventions). -/
structure Period where
  start : Int
  end_ : Int
  resolution : String
  points : List Point
deriving DecidableEq, Repr

/-- Reason, from src/entsoe/xml.rs: an acknowledgement reason code and text. -/
structure Reason where
  code : String
  text : String
deriving DecidableEq, Repr

/-- AcknowledgementMarketDocument, from src/entsoe/xml.rs. -/
structure AcknowledgementMarketDocument where
  reasons : List Reason
deriving DecidableEq, Repr

/-- TimeSeries, from src/entsoe/xml.rs (currency/measure-unit attributes are
dead code in the source and omitted). -/
structure TimeSeries where
  periods : List Period
deriving DecidableEq, Repr

/-- PublicationMarketDocument, from src/entsoe/xml.rs. -/
structure PublicationMarketDocument where
  time_series : List TimeSeries
deriving DecidableEq, Repr

/-- parse_resolution, from src/entsoe/xml.rs lines 71-102, restricted to the
literal fast path; the `iso8601_duration` fallback (external crate) is not
modelled and its inputs are mapped to the error the fallback would produce
for unparsable strings.  The result is the duration in seconds. -/
def parse_resolution (resolution : String) : Except EntsoeError Int :=
  if resolution = "PT15M" then .ok (15 * 60)
  else if resolution = "PT30M" then .ok (30 * 60)
  else if resolution = "PT60M" then .ok (60 * 60)
  else if resolution = "P1D" then .ok 86400
  else if resolution = "P7D" then .ok (7 * 86400)
  else if resolution = "P1Y" then .ok (365 * 86400)
  else .error (.InvalidResolution resolution)

/-- expected_period_count, from src/entsoe/validation.rs lines 14-17.
Rust's `i64` division truncates toward zero (`Int.tdiv`), and the final
`as usize` conversion wraps negative quotients modulo `2 ^ 64`. -/
def expected_period_count (start end_ resolution : Int) : Nat :=
  (((end_ - start).tdiv resolution).emod (2 ^ 64)).toNat

/-- Lookup in the `position -> price_amount` HashMap built at
src/entsoe/validation.rs lines 105-109.  `HashMap` collection lets a later
duplicate position overwrite an earlier one, hence the reversed search. -/
def pointLookup (points : List Point) (position : Nat) : Option ℚ :=
  (points.reverse.find? (fun pt => pt.position == position)).map (·.price_amount)

/-- Floor of a timestamp to its UTC hour: the
`with_minute(0).with_second(0).with_nanosecond(0)` chain at
src/entsoe/validation.rs lines 41-48, on the seconds timeline. -/
def hourStart (t : Int) : Int := 3600 * (t.fdiv 3600)

/-- Group of input prices falling in the hour starting at `h`, in input
order — the order in which src/entsoe/validation.rs lines 40-50 push them
into the per-hour vector. -/
def hourGroup (prices : List Price) (h : Int) : List Price :=
  prices.filter (fun p => hourStart p.timestamp == h)

/-- Hourly average record built from one hour group, from
src/entsoe/validation.rs lines 55-68. -/
def hourlyRecord (prices : List Price) (bidding_zone : String) (h : Int) : Price :=
  let grp := hourGroup prices h
  { timestamp := h
    bidding_zone := bidding_zone
    price_kwh := (grp.map (·.price_kwh)).sum / (grp.length : ℚ)
    currency := grp.headI.currency
    resolution := "PT60M"
    fetched_at := grp.headI.fetched_at }

/-- Sorting by timestamp, the `sort_by_key(|p| p.timestamp)` calls at
src/entsoe/validation.rs line 72 and src/entsoe/xml.rs line 118. -/
def sortByTimestamp (l : List Price) : List Price :=
  List.insertionSort (fun a b => a.timestamp ≤ b.timestamp) l

/-- aggregate_to_hourly, from src/entsoe/validation.rs lines 23-87.  The
`HashMap` grouping is embedded as: one record per distinct hour key (first
occurrence order, which the final sort by the pairwise-distinct timestamps
makes irrelevant), each built from the input-order group. -/
def aggregate_to_hourly (prices : List Price) (bidding_zone : String) : List Price :=
  if prices.isEmpty then prices
  else
    let resolution := prices.headI.resolution
    if resolution = "PT60M" ∨ resolution = "P1D" ∨ resolution = "P7D" ∨ resolution = "P1Y" then
      prices
    else
      let keys := (prices.map (fun p => hourStart p.timestamp)).dedup
      sortByTimestamp (keys.map (hourlyRecord prices bidding_zone))

/-- Forward-fill loop body, from src/entsoe/validation.rs lines 115-150:
`pos` is the next 1-based position, `remaining` the number of positions left,
`prev` the running previous value. -/
def fillFrom (points : List Point) (start res : Int) (resStr zone : String) (now : Int) :
    Nat → Nat → Option ℚ → Except EntsoeError (List Price)
  | _, 0, _ => .ok []
  | pos, remaining + 1, prev =>
    match pointLookup points pos with
    | some amount =>
      match fillFrom points start res resStr zone now (pos + 1) remaining (some amount) with
      | .error e => .error e
      | .ok rest =>
        .ok (Price.from_mwh (start + res * ((pos : Int) - 1)) zone amount resStr now :: rest)
    | none =>
      match prev with
      | some prevAmount =>
        match fillFrom points start res resStr zone now (pos + 1) remaining (some prevAmount) with
        | .error e => .error e
        | .ok rest =>
          .ok (Price.from_mwh (start + res * ((pos : Int) - 1)) zone prevAmount resStr now :: rest)
      | none => .error .MissingFirstPeriod

/-- Forward-fill of all expected positions `1..=n`, the loop at
src/entsoe/validation.rs lines 115-150 (the per-zone gap metric, a pure
telemetry side effect, is not modelled). -/
def forward_fill (points : List Point) (start res : Int) (resStr zone : String)
    (now : Int) (n : Nat) : Except EntsoeError (List Price) :=
  fillFrom points start res resStr zone now 1 n none

/-- validate_and_fill_period, from src/entsoe/validation.rs lines 91-160:
parse the resolution, compute the expected count, forward-fill, then
aggregate sub-hourly prices to hourly averages. -/
def validate_and_fill_period (period : Period) (bidding_zone : String) (now : Int) :
    Except EntsoeError (List Price) :=
  match parse_resolution period.resolution with
  | .error e => .error e
  | .ok res =>
    let expected := expected_period_count period.start period.end_ res
    if expected = 0 then .ok []
    else
      match forward_fill period.points period.start res period.resolution bidding_zone now expected with
      | .error e => .error e
      | .ok filled => .ok (aggregate_to_hourly filled bidding_zone)

/-- Length of an `ok` result, `none` for errors; a convenience observer used
by the concrete-input theorems. -/
def okLength : Except EntsoeError (List Price) → Option Nat
  | .ok l => some l.length
  | .error _ => none

/-- Concatenated extraction over the periods of one time series, part of
PublicationMarketDocument::extract_prices at src/entsoe/xml.rs lines 104-122. -/
def extract_periods (periods : List Period) (zone : String) (now : Int) :
    Except EntsoeError (List Price) :=
  match periods with
  | [] => .ok []
  | p :: rest =>
    match validate_and_fill_period p zone now with
    | .error e => .error e
    | .ok prices =>
      match extract_periods rest zone now with
      | .error e => .error e
      | .ok more => .ok (prices ++ more)

/-- Concatenated extraction over all time series, part of
PublicationMarketDocument::extract_prices at src/entsoe/xml.rs lines 104-122. -/
def extract_series (series : List TimeSeries) (zone : String) (now : Int) :
    Except EntsoeError (List Price) :=
  match series with
  | [] => .ok []
  | ts :: rest =>
    match extract_periods ts.periods zone now with
    | .error e => .error e
    | .ok prices =>
      match extract_series rest zone now with
      | .error e => .error e
      | .ok more => .ok (prices ++ more)

/-- PublicationMarketDocument::extract_prices, from src/entsoe/xml.rs lines
104-122: concatenate every period of every time series, then sort the whole
batch by timestamp. -/
def extract_prices (doc : PublicationMarketDocument) (zone : String) (now : Int) :
    Except EntsoeError (List Price) :=
  match extract_series doc.time_series zone now with
  | .error e => .error e
  | .ok prices => .ok (sortByTimestamp prices)

/-- parse_response, from src/entsoe/client.rs lines 212-234.  The two
`quick_xml::de::from_str` decode attempts are external-library calls; their
outcomes are supplied as the `pubDoc` / `ackDoc` parameters (`none` models a
decode failure).  The Rust `for` loop returning `Ok(vec![])` at the first
reason with code 999 is equivalent to the `any` test; the acknowledgement
error message abbreviates the `Debug` rendering of the reasons. -/
def parse_response (pubDoc : Option PublicationMarketDocument)
    (ackDoc : Option AcknowledgementMarketDocument) (body zone : String) (now : Int) :
    Except EntsoeError (List Price) :=
  match pubDoc with
  | some doc => extract_prices doc zone now
  | none =>
    match ackDoc with
    | some ack =>
      if ack.reasons.any (fun r => r.code == "999") then .ok []
      else
        .error (.InvalidResponse
          ("ENTSOE returned acknowledgement: " ++
            String.intercalate ", " (ack.reasons.map (fun r => r.code))))
    | none =>
      .error (.XmlParseError
        ("Failed to parse response as either Publication or Acknowledgement document. Body starts with: "
          ++ body.take 200))

/-- compute_backoff_with_jitter, from src/entsoe/client.rs lines 236-241.
`2u64.saturating_pow(attempt)` is `min (2 ^ attempt) (2 ^ 64 - 1)` and the
release-mode `u64` product wraps modulo `2 ^ 64` (irrelevant at the call
sites, where `attempt ≤ 2`).  `rand_jitter()` is `(hash % 1000) / 1000`, so
the jitter `(capped as f64 * 0.2 * rand_jitter()) as u64` is the exact floor
`capped * (rnd % 1000) / 5000`; the result is in milliseconds. -/
def compute_backoff_with_jitter (attempt : Nat) (base_delay_ms : Nat) (rnd : Nat) : Nat :=
  let exp_delay := (base_delay_ms * min (2 ^ attempt) (2 ^ 64 - 1)) % 2 ^ 64
  let capped_delay := min exp_delay 60000
  capped_delay + capped_delay * (rnd % 1000) / 5000

/-- Retry loop body of fetch_day_ahead_prices_with_retry, from
src/entsoe/client.rs lines 244-284.  `fetch i` is the outcome of the `i`-th
call to `fetch_day_ahead_prices`, `rnd i` the hash feeding that attempt's
jitter; `fuel` counts the retries still allowed (the Rust guard
`attempt + 1 < MAX_ATTEMPTS`).  The result records the value returned, the
number of attempts performed, and the list of backoff sleeps in order. -/
def retryAux (fetch : Nat → Except EntsoeError (List Price)) (rnd : Nat → Nat) :
    Nat → Nat → Except EntsoeError (List Price) × Nat × List Nat
  | attempt, fuel =>
    match fetch attempt with
    | .ok prices => (.ok prices, attempt + 1, [])
    | .error e =>
      if e.is_transient then
        match fuel with
        | 0 => (.error e, attempt + 1, [])
        | f + 1 =>
          let backoff := compute_backoff_with_jitter attempt 1000 (rnd attempt)
          let rest := retryAux fetch rnd (attempt + 1) f
          (rest.1, rest.2.1, backoff :: rest.2.2)
      else (.error e, attempt + 1, [])

/-- fetch_day_ahead_prices_with_retry, from src/entsoe/client.rs lines
244-284: `MAX_ATTEMPTS = 4` and `BASE_DELAY_MS = 1000`, so the loop starts at
attempt 0 with 3 retries of fuel. -/
def fetch_day_ahead_prices_with_retry (fetch : Nat → Except EntsoeError (List Price))
    (rnd : Nat → Nat) : Except EntsoeError (List Price) × Nat × List Nat :=
  retryAux fetch rnd 0 3

/-- TokenBucketRateLimiter, from src/entsoe/client.rs lines 19-24; the `f64`
fields are embedded as `ℚ` and `last_refill` is abstracted into the
`elapsed` argument of `refill`. -/
structure TokenBucketRateLimiter where
  tokens : ℚ
  max_tokens : ℚ
  refill_rate_per_sec : ℚ
deriving DecidableEq, Repr

/-- TokenBucketRateLimiter::new, from src/entsoe/client.rs lines 27-36. -/
def TokenBucketRateLimiter.new (requests_per_minute : Nat) : TokenBucketRateLimiter :=
  { tokens := requests_per_minute
    max_tokens := requests_per_minute
    refill_rate_per_sec := (requests_per_minute : ℚ) / 60 }

/-- TokenBucketRateLimiter::refill, from src/entsoe/client.rs lines 38-43,
with the elapsed seconds since the last refill passed explicitly. -/
def TokenBucketRateLimiter.refill (s : TokenBucketRateLimiter) (elapsed : ℚ) :
    TokenBucketRateLimiter :=
  { s with tokens := min (s.tokens + elapsed * s.refill_rate_per_sec) s.max_tokens }

/-- TokenBucketRateLimiter::try_acquire, from src/entsoe/client.rs lines
46-55: refill lazily, then either consume one token (`none`) or report the
wait `(1 - tokens) / refill_rate_per_sec` without consuming. -/
def TokenBucketRateLimiter.try_acquire (s : TokenBucketRateLimiter) (elapsed : ℚ) :
    Option ℚ × TokenBucketRateLimiter :=
  let s' := s.refill elapsed
  if 1 ≤ s'.tokens then (none, { s' with tokens := s'.tokens - 1 })
  else (some ((1 - s'.tokens) / s'.refill_rate_per_sec), s')

/-- FetchStatus, from src/models/fetch_log.rs. -/
inductive FetchStatus where
  | Pending : FetchStatus
  | Success : FetchStatus
  | NoData : FetchStatus
  | Error : FetchStatus
  | RateLimited : FetchStatus
deriving DecidableEq, Repr

/-- FetchSummary, from src/fetcher/service.rs lines 14-21. -/
structure FetchSummary where
  succeeded : Nat
  failed : Nat
  no_data : Nat
  total_prices_stored : Nat
  errors : List String
deriving DecidableEq, Repr

/-- FetchSummary::merge, from src/fetcher/service.rs lines 23-31. -/
def FetchSummary.merge (s other : FetchSummary) : FetchSummary :=
  { succeeded := s.succeeded + other.succeeded
    failed := s.failed + other.failed
    no_data := s.no_data + other.no_data
    total_prices_stored := s.total_prices_stored + other.total_prices_stored
    errors := s.errors ++ other.errors }

/-- Final fetch-log status selection of fetch_all_prices, from
src/fetcher/service.rs lines 152-158 (the identical block appears in
fetch_tomorrow_if_missing at lines 292-298). -/
def fetch_final_status (s : FetchSummary) : FetchStatus :=
  if s.failed > 0 then .Error
  else if s.succeeded = 0 ∧ s.no_data > 0 then .NoData
  else .Success

/-- StorageError, from src/storage/error.rs (variants carry their message). -/
inductive StorageError where
  | DatabaseError : String → StorageError
  | PoolError : String → StorageError
  | QueryError : String → StorageError
  | NotFound : String → StorageError
  | InvalidInput : String → StorageError
deriving DecidableEq, Repr

/-- Observable SQL actions issued by a repository call, in order. -/
inductive SqlEvent where
  | beginTx : SqlEvent
  | execUpsert : Nat → SqlEvent
  | commitTx : SqlEvent
deriving DecidableEq, Repr

/-- Composite key `(timestamp, bidding_zone)` of the electricity_prices
table, the conflict target of the upsert statement. -/
def price_key (p : Price) : Int × String := (p.timestamp, p.bidding_zone)

/-- Effect of one row of the `INSERT ... ON CONFLICT (timestamp,
bidding_zone) DO UPDATE` statement on the table contents. -/
def upsert_row (table : List Price) (p : Price) : List Price :=
  if table.any (fun q => price_key q = price_key p) then
    table.map (fun q => if price_key q = price_key p then p else q)
  else table ++ [p]

/-- PriceRepository::upsert_prices, from src/storage/repository.rs lines
65-111, as a transition on the table contents together with the trace of SQL
actions issued: an empty batch returns `Ok(0)` before any transaction is
begun; a non-empty batch begins a transaction, executes the single bulk
upsert (rows_affected counts every input row, inserted or updated), and
commits. -/
def upsert_prices (table : List Price) (prices : List Price) :
    Except StorageError Nat × List Price × List SqlEvent :=
  if prices.isEmpty then (.ok 0, table, [])
  else
    (.ok prices.length, prices.foldl upsert_row table,
      [.beginTx, .execUpsert prices.length, .commitTx])

/-- Specification of the running forward-fill value: the value emitted at
position `pos + i` when the running previous value at entry to position
`pos` is `prev` — a present point's amount is adopted, a missing point
re-emits the running value. -/
def running_fill_value (points : List Point) (prev : ℚ) (pos : Nat) : Nat → ℚ
  | 0 => (pointLookup points pos).getD prev
  | i + 1 => (pointLookup points (pos + i + 1)).getD (running_fill_value points prev pos i)

/-- C2 counterexample: `HttpError` is not classified as transient, and a
fetch failing with `HttpError` is returned after a single attempt instead of
being retried. -/
theorem httpError_not_transient_counterexample :
    (EntsoeError.HttpError "connection reset").is_transient = false ∧
    fetch_day_ahead_prices_with_retry
        (fun _ => .error (.HttpError "connection reset")) (fun _ => 0) =
      (.error (.HttpError "connection reset"), 1, []) :=
  ⟨rfl, rfl⟩

/-- C2 (amended): the `HttpError` variant is classified as permanent
(`is_transient` is false), so `fetch_day_ahead_prices_with_retry` returns a
fetch that fails with `HttpError` immediately after the first attempt, with
no backoff sleeps. -/
theorem httpError_short_circuits (fetch : Nat → Except EntsoeError (List Price))
    (rnd : Nat → Nat) (m : String) (h : fetch 0 = .error (.HttpError m)) :
    (EntsoeError.HttpError m).is_transient = false ∧
    fetch_day_ahead_prices_with_retry fetch rnd = (.error (.HttpError m), 1, []) := by
  refine ⟨rfl, ?_⟩
  simp [fetch_day_ahead_prices_with_retry, retryAux, h, EntsoeError.is_transient]

/-- C2 witness: instantiation of `httpError_short_circuits` at a concrete
always-failing fetch. -/
theorem httpError_short_circuits_witness :
    (EntsoeError.HttpError "timeout").is_transient = false ∧
    fetch_day_ahead_prices_with_retry
        (fun _ => .error (.HttpError "timeout")) (fun _ => 7) =
      (.error (.HttpError "timeout"), 1, []) :=
  httpError_short_circuits (fun _ => .error (.HttpError "timeout")) (fun _ => 7) "timeout" rfl

/-- C4 counterexample: a merged summary with `succeeded = failed = no_data
= 0` closes the fetch log with status `Success`, not `NoData`. -/
theorem fetch_final_status_all_zero_counterexample :
    fetch_final_status ⟨0, 0, 0, 0, []⟩ = .Success ∧
    (FetchStatus.Success ≠ FetchStatus.NoData) :=
  ⟨rfl, by decide⟩

/-- C4 (amended): the fetch log closes with `Error` iff any zone failed;
with `NoData` iff nothing failed, nothing succeeded and at least one zone
reported no data; and with `Success` otherwise — in particular an all-zero
summary closes as `Success`. -/
theorem fetch_final_status_spec (s : FetchSummary) :
    (fetch_final_status s = .Error ↔ 0 < s.failed) ∧
    (fetch_final_status s = .NoData ↔ s.failed = 0 ∧ s.succeeded = 0 ∧ 0 < s.no_data) ∧
    (fetch_final_status s = .Success ↔ s.failed = 0 ∧ ¬(s.succeeded = 0 ∧ 0 < s.no_data)) := by
  refine ⟨?_, ?_, ?_⟩ <;> unfold fetch_final_status <;> split_ifs with h1 h2 <;>
    simp_all <;> omega

/-- C10: an empty batch makes `upsert_prices` return `Ok(0)` with the table
untouched and no SQL issued (no transaction begun); a non-empty batch takes
the transactional path, issuing exactly begin / bulk-upsert / commit and
reporting every input row as affected. -/
theorem upsert_prices_empty_frame (table : List Price) (prices : List Price) :
    (upsert_prices table [] = (.ok 0, table, [])) ∧
    (prices ≠ [] →
      (upsert_prices table prices).2.2 =
          [.beginTx, .execUpsert prices.length, .commitTx] ∧
        (upsert_prices table prices).1 = .ok prices.length) := by
  refine ⟨rfl, fun h => ?_⟩
  rw [upsert_prices, if_neg (by simpa using h)]
  exact ⟨rfl, rfl⟩

/-- C10 witness: instantiation of `upsert_prices_empty_frame` at a concrete
one-element batch. -/
theorem upsert_prices_empty_frame_witness :
    (upsert_prices [] ([] : List Price) = (.ok 0, [], [])) ∧
    (upsert_prices [] [(default : Price)]).2.2 =
        [.beginTx, .execUpsert 1, .commitTx] ∧
      (upsert_prices [] [(default : Price)]).1 = .ok 1 :=
  ⟨(upsert_prices_empty_frame [] [(default : Price)]).1,
    (upsert_prices_empty_frame [] [(default : Price)]).2 (by simp)⟩

/-- C9: a bucket built by `new C` starts with `tokens = max_tokens = C` and
refill rate `C / 60` per second; every `try_acquire` first refills lazily to
`min (tokens + elapsed * C/60) C`, then either consumes one token and
returns `none`, or consumes nothing and returns the wait
`(1 - tokens) / (C / 60)`. -/
theorem tokenBucket_try_acquire_spec (C : Nat) (_hC : 0 < C)
    (s : TokenBucketRateLimiter) (elapsed : ℚ)
    (hmax : s.max_tokens = C) (hrate : s.refill_rate_per_sec = (C : ℚ) / 60) :
    (TokenBucketRateLimiter.new C = ⟨C, C, (C : ℚ) / 60⟩) ∧
    ((s.refill elapsed).tokens = min (s.tokens + elapsed * ((C : ℚ) / 60)) C) ∧
    (1 ≤ min (s.tokens + elapsed * ((C : ℚ) / 60)) (C : ℚ) →
      s.try_acquire elapsed =
        (none, ⟨min (s.tokens + elapsed * ((C : ℚ) / 60)) C - 1, C, (C : ℚ) / 60⟩)) ∧
    (min (s.tokens + elapsed * ((C : ℚ) / 60)) (C : ℚ) < 1 →
      s.try_acquire elapsed =
        (some ((1 - min (s.tokens + elapsed * ((C : ℚ) / 60)) (C : ℚ)) / ((C : ℚ) / 60)),
          ⟨min (s.tokens + elapsed * ((C : ℚ) / 60)) C, C, (C : ℚ) / 60⟩)) := by
  refine ⟨rfl, by simp [TokenBucketRateLimiter.refill, hmax, hrate], fun h => ?_, fun h => ?_⟩
  · simp only [TokenBucketRateLimiter.try_acquire, TokenBucketRateLimiter.refill,
      hmax, hrate]
    rw [if_pos h]
  · simp only [TokenBucketRateLimiter.try_acquire, TokenBucketRateLimiter.refill,
      hmax, hrate]
    rw [if_neg (not_le.mpr h)]

/-- C9 witness: instantiation of `tokenBucket_try_acquire_spec` at a fresh
bucket of capacity 60 with no elapsed time. -/
theorem tokenBucket_try_acquire_spec_witness :
    (TokenBucketRateLimiter.new 60).try_acquire 0 =
      (none, ⟨min (((60 : Nat) : ℚ) + 0 * (((60 : Nat) : ℚ) / 60)) ((60 : Nat) : ℚ) - 1,
        ((60 : Nat) : ℚ), ((60 : Nat) : ℚ) / 60⟩) :=
  (tokenBucket_try_acquire_spec 60 (by decide) (TokenBucketRateLimiter.new 60) 0
    rfl rfl).2.2.1 (by norm_num [TokenBucketRateLimiter.new])

/-- Bound on the embedded jitter floor: for a positive capped delay `c`,
`c * (k % 1000) / 5000` stays strictly below one fifth of `c`. -/
theorem jitter_lt_fifth (c k : Nat) (hc : 0 < c) : 5 * (c * (k % 1000) / 5000) < c := by
  have h1 : c * (k % 1000) / 5000 = c * (k % 1000) / 1000 / 5 := by
    rw [show (5000 : Nat) = 1000 * 5 from rfl, ← Nat.div_div_eq_div_mul]
  have h2 : 5 * (c * (k % 1000) / 1000 / 5) ≤ c * (k % 1000) / 1000 := by
    rw [mul_comm]
    exact Nat.div_mul_le_self _ _
  have h3 : c * (k % 1000) / 1000 ≤ c * 999 / 1000 :=
    Nat.div_le_div_right (Nat.mul_le_mul_left c (by omega : k % 1000 ≤ 999))
  have h4 : c * 999 / 1000 < c := by
    rw [Nat.div_lt_iff_lt_mul (by norm_num : 0 < 1000)]
    omega
  omega

/-- Shape of each backoff at the attempts that can sleep (`attempt ≤ 2`):
the capped exponential delay plus a jitter strictly below a fifth of it,
with the whole sleep bounded by 72 seconds. -/
theorem compute_backoff_shape (i rnd : Nat) (hi : i ≤ 2) :
    ∃ j, compute_backoff_with_jitter i 1000 rnd = min (1000 * 2 ^ i) 60000 + j ∧
      5 * j < min (1000 * 2 ^ i) 60000 ∧
      compute_backoff_with_jitter i 1000 rnd ≤ 72000 := by
  have hexp : (1000 * min (2 ^ i) (2 ^ 64 - 1)) % 2 ^ 64 = 1000 * 2 ^ i := by
    interval_cases i <;> decide
  have hc : 0 < min (1000 * 2 ^ i) 60000 := by
    interval_cases i <;> decide
  refine ⟨min (1000 * 2 ^ i) 60000 * (rnd % 1000) / 5000, ?_, ?_, ?_⟩
  · simp only [compute_backoff_with_jitter, hexp]
  · exact jitter_lt_fifth _ rnd hc
  · simp only [compute_backoff_with_jitter, hexp]
    have := jitter_lt_fifth (min (1000 * 2 ^ i) 60000) rnd hc
    have hle : min (1000 * 2 ^ i) 60000 ≤ 60000 := min_le_right _ _
    omega

/-- Invariant of the retry loop: starting at `attempt` with `fuel` retries
left, the loop performs between 1 and `fuel + 1` further attempts, returns
exactly the outcome of the last attempt performed, retries only through
transient errors, stops early only on a success or a permanent error, and
sleeps one recorded backoff before every attempt after the first. -/
theorem retryAux_spec (fetch : Nat → Except EntsoeError (List Price)) (rnd : Nat → Nat) :
    ∀ (fuel attempt : Nat) (res : Except EntsoeError (List Price)) (att : Nat) (ws : List Nat),
    retryAux fetch rnd attempt fuel = (res, att, ws) →
      attempt + 1 ≤ att ∧ att ≤ attempt + fuel + 1 ∧ res = fetch (att - 1) ∧
      (∀ j, attempt ≤ j → j + 1 < att → ∃ e, fetch j = .error e ∧ e.is_transient = true) ∧
      (att < attempt + fuel + 1 →
        (∃ l, fetch (att - 1) = .ok l) ∨
          ∃ e, fetch (att - 1) = .error e ∧ e.is_transient = false) ∧
      ws.length = att - 1 - attempt ∧
      ∀ i (h : i < ws.length),
        ws.get ⟨i, h⟩ = compute_backoff_with_jitter (attempt + i) 1000 (rnd (attempt + i)) := by
  intro fuel
  induction fuel with
  | zero =>
    intro attempt res att ws h
    cases hf : fetch attempt with
    | ok prices =>
      rw [retryAux] at h
      simp only [hf] at h
      injection h with h1 h2
      injection h2 with h2 h3
      subst h1 h2 h3
      refine ⟨le_refl _, le_refl _, by simp [hf], fun j hj hj' => absurd hj' (by omega),
        fun hlt => absurd hlt (by omega), by simp, fun i hi => absurd hi (by simp)⟩
    | error e =>
      rw [retryAux] at h
      simp only [hf] at h
      by_cases ht : e.is_transient = true
      · rw [if_pos ht] at h
        injection h with h1 h2
        injection h2 with h2 h3
        subst h1 h2 h3
        refine ⟨le_refl _, le_refl _, by simp [hf], fun j hj hj' => absurd hj' (by omega),
          fun hlt => absurd hlt (by omega), by simp, fun i hi => absurd hi (by simp)⟩
      · rw [if_neg ht] at h
        injection h with h1 h2
        injection h2 with h2 h3
        subst h1 h2 h3
        refine ⟨le_refl _, le_refl _, by simp [hf], fun j hj hj' => absurd hj' (by omega),
          fun _ => .inr ⟨e, by simp [hf], by simpa using ht⟩, by simp,
          fun i hi => absurd hi (by simp)⟩
  | succ f ih =>
    intro attempt res att ws h
    cases hf : fetch attempt with
    | ok prices =>
      rw [retryAux] at h
      simp only [hf] at h
      injection h with h1 h2
      injection h2 with h2 h3
      subst h1 h2 h3
      refine ⟨le_refl _, by omega, by simp [hf], fun j hj hj' => absurd hj' (by omega),
        fun _ => .inl ⟨prices, by simp [hf]⟩, by simp, fun i hi => absurd hi (by simp)⟩
    | error e =>
      rw [retryAux] at h
      simp only [hf] at h
      by_cases ht : e.is_transient = true
      · rw [if_pos ht] at h
        injection h with h1 h2
        injection h2 with h2 h3
        obtain ⟨h4, h5, h6, h7, h8, h9, h10⟩ := ih (attempt + 1)
          (retryAux fetch rnd (attempt + 1) f).1 (retryAux fetch rnd (attempt + 1) f).2.1
          (retryAux fetch rnd (attempt + 1) f).2.2 rfl
        subst h1 h2 h3
        refine ⟨by omega, by omega, h6, ?_, ?_, by simp; omega, ?_⟩
        · intro j hj hj'
          rcases eq_or_lt_of_le hj with hj0 | hj1
          · exact ⟨e, hj0 ▸ hf, ht⟩
          · exact h7 j (by omega) hj'
        · intro hlt
          exact h8 (by omega)
        · intro i hi
          cases i with
          | zero => simp
          | succ i =>
            have hi' : i < (retryAux fetch rnd (attempt + 1) f).2.2.length := by
              simpa using hi
            have hgi := h10 i hi'
            simp only [List.get_cons_succ]
            rw [hgi, show attempt + 1 + i = attempt + (i + 1) from by omega]
      · rw [if_neg ht] at h
        injection h with h1 h2
        injection h2 with h2 h3
        subst h1 h2 h3
        refine ⟨le_refl _, by omega, by simp [hf], fun j hj hj' => absurd hj' (by omega),
          fun _ => .inr ⟨e, by simp [hf], by simpa using ht⟩, by simp,
          fun i hi => absurd hi (by simp)⟩

/-- C8: `fetch_day_ahead_prices_with_retry` performs between 1 and 4
attempts and returns the outcome of its last attempt (so the last transient
error after the 4th failure); every attempt before the last failed with a
transient error; an early stop means the last attempt succeeded or failed
permanently; transient means exactly `RateLimited` or
`TemporaryUnavailable`; and the sleep before retried attempt `i + 1` is
`min (1000 * 2 ^ i) 60000` ms plus a jitter in `[0, capped / 5)`, each sleep
at most 72000 ms. -/
theorem fetch_with_retry_spec (fetch : Nat → Except EntsoeError (List Price))
    (rnd : Nat → Nat) (res : Except EntsoeError (List Price)) (att : Nat) (ws : List Nat)
    (h : fetch_day_ahead_prices_with_retry fetch rnd = (res, att, ws)) :
    (1 ≤ att ∧ att ≤ 4) ∧ res = fetch (att - 1) ∧
    (∀ j, j + 1 < att → ∃ e, fetch j = .error e ∧ e.is_transient = true) ∧
    (att < 4 →
      (∃ l, fetch (att - 1) = .ok l) ∨
        ∃ e, fetch (att - 1) = .error e ∧ e.is_transient = false) ∧
    ws.length = att - 1 ∧
    (∀ i (hi : i < ws.length),
      ∃ j, ws.get ⟨i, hi⟩ = min (1000 * 2 ^ i) 60000 + j ∧
        5 * j < min (1000 * 2 ^ i) 60000 ∧ ws.get ⟨i, hi⟩ ≤ 72000) ∧
    (∀ e : EntsoeError,
      e.is_transient = true ↔ e = .RateLimited ∨ ∃ m, e = .TemporaryUnavailable m) := by
  obtain ⟨h1, h2, h3, h4, h5, h6, h7⟩ := retryAux_spec fetch rnd 3 0 res att ws h
  refine ⟨⟨by omega, by omega⟩, h3, fun j hj => h4 j (by omega) hj, fun hlt => h5 (by omega),
    by simpa using h6, ?_, ?_⟩
  · intro i hi
    have hi2 : i ≤ 2 := by
      have := h6
      simp only [Nat.zero_add] at this
      omega
    obtain ⟨j, hj1, hj2, hj3⟩ := compute_backoff_shape i (rnd i) hi2
    have := h7 i hi
    simp only [Nat.zero_add] at this
    rw [this]
    exact ⟨j, hj1, hj2, hj3⟩
  · intro e
    cases e <;> simp [EntsoeError.is_transient]

/-- C8 witness: instantiation of `fetch_with_retry_spec` at a fetch that is
rate limited once and then succeeds, with zero jitter hashes. -/
theorem fetch_with_retry_spec_witness :
    fetch_day_ahead_prices_with_retry
        (fun i => if i = 0 then .error .RateLimited else .ok []) (fun _ => 0) =
      (.ok [], 2, [1000]) ∧ (1 ≤ 2 ∧ 2 ≤ 4) :=
  ⟨rfl, (fetch_with_retry_spec (fun i => if i = 0 then .error .RateLimited else .ok [])
    (fun _ => 0) (.ok []) 2 [1000] rfl).1⟩

/-- C7: `parse_response` returns the publication extraction whenever the
body decodes as a Publication document; otherwise, for an Acknowledgement
decode it returns `Ok []` when some reason has code 999 and
`InvalidResponse` when no reason does; and when both decodes fail it
returns `XmlParseError` whose message carries exactly the first (at most)
200 characters of the body. -/
theorem parse_response_spec (ack : AcknowledgementMarketDocument)
    (body zone : String) (now : Int) :
    ((∃ r ∈ ack.reasons, r.code = "999") →
      parse_response none (some ack) body zone now = .ok []) ∧
    ((∀ r ∈ ack.reasons, r.code ≠ "999") →
      ∃ m, parse_response none (some ack) body zone now = .error (.InvalidResponse m)) ∧
    (parse_response none none body zone now =
      .error (.XmlParseError
        ("Failed to parse response as either Publication or Acknowledgement document. Body starts with: "
          ++ body.take 200))) ∧
    (∀ doc : PublicationMarketDocument,
      parse_response (some doc) (some ack) body zone now = extract_prices doc zone now) := by
  refine ⟨?_, ?_, rfl, fun doc => rfl⟩
  · rintro ⟨r, hr, hcode⟩
    have hany : ack.reasons.any (fun r => r.code == "999") = true := by
      rw [List.any_eq_true]
      exact ⟨r, hr, by simp [hcode]⟩
    simp [parse_response, hany]
  · intro hnone
    have hany : ack.reasons.any (fun r => r.code == "999") = false := by
      rw [List.any_eq_false]
      intro r hr
      simp [hnone r hr]
    exact ⟨"ENTSOE returned acknowledgement: " ++
      String.intercalate ", " (ack.reasons.map (fun r => r.code)),
      by simp [parse_response, hany]⟩

/-- C7 witness: instantiation of `parse_response_spec` at an
acknowledgement carrying reason code 999. -/
theorem parse_response_spec_witness :
    parse_response none (some ⟨[⟨"999", "No matching data found"⟩]⟩) "body" "AT" 0 = .ok [] :=
  (parse_response_spec ⟨[⟨"999", "No matching data found"⟩]⟩ "body" "AT" 0).1
    ⟨⟨"999", "No matching data found"⟩, by simp, rfl⟩

/-- Unfolding of the running forward-fill value: advancing past position
`pos` turns the running previous value into whatever position `pos`
contributed. -/
theorem running_fill_value_succ (points : List Point) (q : ℚ) (pos : Nat) :
    ∀ i, running_fill_value points q pos (i + 1) =
      running_fill_value points ((pointLookup points pos).getD q) (pos + 1) i := by
  intro i
  induction i with
  | zero => simp [running_fill_value]
  | succ i ih =>
    show (pointLookup points (pos + (i + 1) + 1)).getD (running_fill_value points q pos (i + 1)) =
      (pointLookup points (pos + 1 + i + 1)).getD
        (running_fill_value points ((pointLookup points pos).getD q) (pos + 1) i)
    rw [ih, show pos + (i + 1) + 1 = pos + 1 + i + 1 from by omega]

/-- One step of the fill loop with a set running previous value: position
`pos` emits its own amount when present and the running value otherwise,
and the loop continues with the emitted value as the new running value. -/
theorem fillFrom_succ (points : List Point) (start res : Int) (resStr zone : String)
    (now : Int) (pos r : Nat) (q : ℚ) :
    fillFrom points start res resStr zone now pos (r + 1) (some q) =
      match fillFrom points start res resStr zone now (pos + 1) r
          (some ((pointLookup points pos).getD q)) with
      | .error e => .error e
      | .ok rest => .ok (Price.from_mwh (start + res * ((pos : Int) - 1)) zone
          ((pointLookup points pos).getD q) resStr now :: rest) := by
  cases hp : pointLookup points pos <;> simp [fillFrom, hp]

/-- With a set running previous value the fill loop always succeeds: it
yields one record per remaining position, whose timestamp advances by one
resolution step per position and whose MWh value is the running forward-fill
value. -/
theorem fillFrom_some_ok (points : List Point) (start res : Int) (resStr zone : String)
    (now : Int) :
    ∀ (r pos : Nat) (q : ℚ), ∃ l,
      fillFrom points start res resStr zone now pos r (some q) = .ok l ∧ l.length = r ∧
      ∀ i, i < r → l[i]? =
        some (Price.from_mwh (start + res * ((pos : Int) + (i : Int) - 1)) zone
          (running_fill_value points q pos i) resStr now) := by
  intro r
  induction r with
  | zero =>
    intro pos q
    exact ⟨[], by simp [fillFrom], rfl, fun i hi => absurd hi (by omega)⟩
  | succ r ih =>
    intro pos q
    obtain ⟨l', hl', hlen, hget⟩ := ih (pos + 1) ((pointLookup points pos).getD q)
    refine ⟨Price.from_mwh (start + res * ((pos : Int) - 1)) zone
        ((pointLookup points pos).getD q) resStr now :: l', ?_, by simp [hlen], ?_⟩
    · rw [fillFrom_succ, hl']
    · intro i hi
      cases i with
      | zero => simp [running_fill_value]
      | succ i =>
        have hi' : i < r := by omega
        have hgi := hget i hi'
        have harg : (((pos + 1 : Nat) : Int) + (i : Int) - 1) =
            ((pos : Int) + ((i + 1 : Nat) : Int) - 1) := by push_cast; ring
        simp only [List.getElem?_cons_succ]
        rw [hgi, running_fill_value_succ, harg]

/-- Forward fill with position 1 present: the whole expected range is
produced, the record at index `i` (position `i + 1`) carries timestamp
`start + resolution * i` and the running forward-fill value seeded by
position 1's amount. -/
theorem forward_fill_ok (points : List Point) (start res : Int) (resStr zone : String)
    (now : Int) (n : Nat) (a1 : ℚ) (h1 : pointLookup points 1 = some a1) :
    ∃ l, forward_fill points start res resStr zone now n = .ok l ∧ l.length = n ∧
      ∀ i, i < n → l[i]? =
        some (Price.from_mwh (start + res * (i : Int)) zone
          (running_fill_value points a1 1 i) resStr now) := by
  cases n with
  | zero =>
    exact ⟨[], by simp [forward_fill, fillFrom], rfl, fun i hi => absurd hi (by omega)⟩
  | succ m =>
    obtain ⟨l', hl', hlen, hget⟩ := fillFrom_some_ok points start res resStr zone now m 2 a1
    refine ⟨Price.from_mwh (start + res * ((1 : Int) - 1)) zone a1 resStr now :: l',
      ?_, by simp [hlen], ?_⟩
    · rw [forward_fill]
      simp only [fillFrom, h1]
      norm_num
      rw [hl']
    · intro i hi
      cases i with
      | zero => simp [running_fill_value, h1]
      | succ i =>
        have hi' : i < m := by omega
        have hgi := hget i hi'
        have hv : running_fill_value points a1 1 (i + 1) = running_fill_value points a1 2 i := by
          rw [running_fill_value_succ, h1]
          rfl
        have harg : (((2 : Nat) : Int) + (i : Int) - 1) = (((i + 1 : Nat) : Int)) := by
          push_cast; ring
        simp only [List.getElem?_cons_succ]
        rw [hgi, harg, hv]

/-- C6: in `validate_and_fill_period`, a missing position 1 (with a
positive expected count) fails with `MissingFirstPeriod`; with position 1
present the fill stage produces, for every expected position `p = i + 1`,
a record with timestamp `start + resolution * (p - 1)` whose MWh value is
the point's own amount when present and the running previous value when
missing (the `running_fill_value` recurrence). -/
theorem validate_forward_fill_spec (period : Period) (zone : String) (now : Int)
    (res : Int) (N : Nat)
    (hres : parse_resolution period.resolution = .ok res)
    (hN : N = expected_period_count period.start period.end_ res) :
    (pointLookup period.points 1 = none → 0 < N →
      validate_and_fill_period period zone now = .error .MissingFirstPeriod) ∧
    (∀ a1 : ℚ, pointLookup period.points 1 = some a1 →
      ∃ l, forward_fill period.points period.start res period.resolution zone now N = .ok l ∧
        l.length = N ∧
        ∀ i, i < N → l[i]? =
          some (Price.from_mwh (period.start + res * (i : Int)) zone
            (running_fill_value period.points a1 1 i) period.resolution now)) := by
  constructor
  · intro h1 hpos
    obtain ⟨m, hm⟩ : ∃ m, N = m + 1 := ⟨N - 1, by omega⟩
    simp only [validate_and_fill_period, hres, ← hN, hm]
    rw [if_neg (by omega : ¬ m + 1 = 0)]
    simp only [forward_fill, fillFrom, h1]
  · intro a1 h1
    exact forward_fill_ok period.points period.start res period.resolution zone now N a1 h1

/-- Concrete five-hour PT60M period with positions 3 missing, used by the
concrete-input theorems (matches the repository's forward-fill test). -/
def period6 : Period := ⟨0, 18000, "PT60M", [⟨1, 50⟩, ⟨2, 55⟩, ⟨4, 60⟩, ⟨5, 65⟩]⟩

/-- C6 witness: instantiation of `validate_forward_fill_spec` at the
concrete gapped period. -/
theorem validate_forward_fill_spec_witness :
    ∃ l, forward_fill period6.points period6.start 3600 period6.resolution "DE-LU" 0 5 = .ok l ∧
      l.length = 5 ∧
      ∀ i : Nat, i < 5 → l[i]? =
        some (Price.from_mwh (period6.start + 3600 * (i : Int)) "DE-LU"
          (running_fill_value period6.points 50 1 i) period6.resolution 0) :=
  (validate_forward_fill_spec period6 "DE-LU" 0 3600 5 (by simp [parse_resolution, period6])
    (by decide)).2 50 (by decide)

/-- C1 (amended): for a period with position 1 present, points within
`1..N` and `N = ⌊(end − start) / resolution⌋ > 0`, the forward-fill stage
always produces exactly `N` records, and `validate_and_fill_period` returns
`Ok` with exactly `N` records whenever the resolution is one of the
pass-through literals `PT60M`/`P1D`/`P7D`/`P1Y`; for `PT15M`/`PT30M` the
returned list is instead the hourly aggregation of those `N` records. -/
theorem validate_and_fill_period_count (period : Period) (zone : String) (now : Int)
    (res : Int) (N : Nat)
    (hres : parse_resolution period.resolution = .ok res)
    (hN : N = expected_period_count period.start period.end_ res)
    (hNpos : 0 < N)
    (h1 : ∃ a, pointLookup period.points 1 = some a)
    (_hsub : ∀ pt ∈ period.points, 1 ≤ pt.position ∧ pt.position ≤ N) :
    (∃ l, forward_fill period.points period.start res period.resolution zone now N = .ok l ∧
      l.length = N) ∧
    ((period.resolution = "PT60M" ∨ period.resolution = "P1D" ∨
        period.resolution = "P7D" ∨ period.resolution = "P1Y") →
      ∃ l, validate_and_fill_period period zone now = .ok l ∧ l.length = N) := by
  obtain ⟨a1, ha1⟩ := h1
  obtain ⟨l, hl, hlen, hget⟩ :=
    forward_fill_ok period.points period.start res period.resolution zone now N a1 ha1
  refine ⟨⟨l, hl, hlen⟩, fun hr => ⟨l, ?_, hlen⟩⟩
  have hne : l ≠ [] := by
    intro h
    rw [h] at hlen
    simp at hlen
    omega
  have hhead : l.headI.resolution = period.resolution := by
    have h0 := hget 0 hNpos
    cases l with
    | nil => exact absurd rfl hne
    | cons x xs =>
      have hx : x = Price.from_mwh (period.start + res * ((0 : Nat) : Int)) zone
          (running_fill_value period.points a1 1 0) period.resolution now := by
        simpa using h0
      rw [show (x :: xs).headI = x from rfl, hx]
      rfl
  have hagg : aggregate_to_hourly l zone = l := by
    rw [aggregate_to_hourly, if_neg (by simpa using hne)]
    simp only [hhead]
    rw [if_pos hr]
  simp only [validate_and_fill_period, hres, ← hN]
  rw [if_neg (by omega : ¬ N = 0)]
  simp only [hl, hagg]

/-- Concrete four-hour PT15M period with all sixteen positions present,
matching the repository's aggregation test. -/
def period15 : Period :=
  ⟨0, 14400, "PT15M",
    [⟨1, 41⟩, ⟨2, 42⟩, ⟨3, 43⟩, ⟨4, 44⟩, ⟨5, 45⟩, ⟨6, 46⟩, ⟨7, 47⟩, ⟨8, 48⟩,
     ⟨9, 49⟩, ⟨10, 50⟩, ⟨11, 51⟩, ⟨12, 52⟩, ⟨13, 53⟩, ⟨14, 54⟩, ⟨15, 55⟩, ⟨16, 56⟩]⟩

/-- C1 counterexample: a PT15M period whose expected count is 16, with
position 1 present and every point within `1..16`, for which
`validate_and_fill_period` returns 4 records (the hourly aggregation), not
16. -/
theorem validate_and_fill_period_count_counterexample :
    expected_period_count period15.start period15.end_ 900 = 16 ∧
    parse_resolution period15.resolution = .ok 900 ∧
    pointLookup period15.points 1 = some 41 ∧
    (∀ pt ∈ period15.points, 1 ≤ pt.position ∧ pt.position ≤ 16) ∧
    okLength (validate_and_fill_period period15 "AT" 0) = some 4 :=
  ⟨by decide, by simp [parse_resolution, period15], by decide, by decide, by decide⟩

/-- C1 witness: instantiation of `validate_and_fill_period_count` at the
concrete PT60M period. -/
theorem validate_and_fill_period_count_witness :
    ∃ l, validate_and_fill_period period6 "DE-LU" 0 = .ok l ∧ l.length = 5 :=
  (validate_and_fill_period_count period6 "DE-LU" 0 3600 5
    (by simp [parse_resolution, period6]) (by decide) (by decide)
    ⟨50, by decide⟩ (by decide)).2 (Or.inl rfl)

instance : IsTotal Price (fun a b => a.timestamp ≤ b.timestamp) :=
  ⟨fun a b => le_total a.timestamp b.timestamp⟩

instance : IsTrans Price (fun a b => a.timestamp ≤ b.timestamp) :=
  ⟨fun _ _ _ h h' => le_trans h h'⟩

/-- Flooring a timestamp to its hour is idempotent. -/
theorem hourStart_idem (t : Int) : hourStart (hourStart t) = hourStart t := by
  unfold hourStart
  rw [Int.mul_fdiv_cancel_left _ (by norm_num : (3600 : Int) ≠ 0)]

/-- C5: on a non-empty batch whose records carry resolution `PT15M` or
`PT30M`, `aggregate_to_hourly` emits records with strictly increasing
timestamps (hence exactly one per hour), whose timestamps are exactly the
distinct UTC hour floors of the input, each record being hour-floored, in
the requested zone, with resolution `PT60M`, price the decimal mean of its
hour group, and currency and `fetched_at` taken from the group's first
point; on the resolutions `PT60M`/`P1D`/`P7D`/`P1Y` the input is returned
unchanged. -/
theorem aggregate_to_hourly_spec (prices : List Price) (zone : String) (res : String)
    (hne : prices ≠ [])
    (hres : ∀ p ∈ prices, p.resolution = res) :
    ((res = "PT15M" ∨ res = "PT30M") →
      (aggregate_to_hourly prices zone).Pairwise (fun a b => a.timestamp < b.timestamp) ∧
      (∀ h : Int,
        (∃ r ∈ aggregate_to_hourly prices zone, r.timestamp = h) ↔
          ∃ p ∈ prices, hourStart p.timestamp = h) ∧
      (∀ r ∈ aggregate_to_hourly prices zone,
        r.timestamp = hourStart r.timestamp ∧
        r.bidding_zone = zone ∧
        r.resolution = "PT60M" ∧
        r.price_kwh = ((hourGroup prices r.timestamp).map (·.price_kwh)).sum /
          ((hourGroup prices r.timestamp).length : ℚ) ∧
        r.currency = (hourGroup prices r.timestamp).headI.currency ∧
        r.fetched_at = (hourGroup prices r.timestamp).headI.fetched_at)) ∧
    ((res = "PT60M" ∨ res = "P1D" ∨ res = "P7D" ∨ res = "P1Y") →
      aggregate_to_hourly prices zone = prices) := by
  have hhead : prices.headI.resolution = res := by
    cases prices with
    | nil => exact absurd rfl hne
    | cons x xs => exact hres x (by simp)
  constructor
  · intro hr
    have hout : aggregate_to_hourly prices zone =
        sortByTimestamp (((prices.map (fun p => hourStart p.timestamp)).dedup).map
          (hourlyRecord prices zone)) := by
      rw [aggregate_to_hourly, if_neg (by simpa using hne)]
      simp only [hhead]
      rw [if_neg (by rcases hr with h | h <;> subst h <;> decide)]
    have hperm : List.Perm (aggregate_to_hourly prices zone)
        (((prices.map (fun p => hourStart p.timestamp)).dedup).map
          (hourlyRecord prices zone)) := by
      rw [hout]
      exact List.perm_insertionSort _ _
    have hsorted : (aggregate_to_hourly prices zone).Pairwise
        (fun a b => a.timestamp ≤ b.timestamp) := by
      rw [hout]
      exact List.sorted_insertionSort _ _
    have hmapts : (((prices.map (fun p => hourStart p.timestamp)).dedup).map
        (hourlyRecord prices zone)).map (fun r => r.timestamp) =
        (prices.map (fun p => hourStart p.timestamp)).dedup := by
      rw [List.map_map]
      have hcomp : ((fun r : Price => r.timestamp) ∘ hourlyRecord prices zone) = id :=
        funext fun k => rfl
      rw [hcomp, List.map_id]
    have hndts : ((aggregate_to_hourly prices zone).map (fun r => r.timestamp)).Pairwise
        (· ≠ ·) := by
      have hpm : List.Perm ((aggregate_to_hourly prices zone).map (fun r => r.timestamp))
          ((prices.map (fun p => hourStart p.timestamp)).dedup) := by
        have hmap := hperm.map (fun r : Price => r.timestamp)
        rwa [hmapts] at hmap
      exact hpm.nodup_iff.mpr (List.nodup_dedup _)
    have hpairne : (aggregate_to_hourly prices zone).Pairwise
        (fun a b => a.timestamp ≠ b.timestamp) := List.pairwise_map.mp hndts
    refine ⟨(hsorted.and hpairne).imp fun h => lt_of_le_of_ne h.1 h.2, ?_, ?_⟩
    · intro h
      constructor
      · rintro ⟨r, hrm, rfl⟩
        obtain ⟨k, hk, rfl⟩ := List.mem_map.mp (hperm.mem_iff.mp hrm)
        obtain ⟨p, hp, hkp⟩ := List.mem_map.mp (List.mem_dedup.mp hk)
        exact ⟨p, hp, hkp⟩
      · rintro ⟨p, hp, hph⟩
        exact ⟨hourlyRecord prices zone h,
          hperm.mem_iff.mpr (List.mem_map.mpr ⟨h,
            List.mem_dedup.mpr (List.mem_map.mpr ⟨p, hp, hph⟩), rfl⟩), rfl⟩
    · intro r hrm
      obtain ⟨k, hk, rfl⟩ := List.mem_map.mp (hperm.mem_iff.mp hrm)
      obtain ⟨p, hp, hkp⟩ := List.mem_map.mp (List.mem_dedup.mp hk)
      refine ⟨?_, rfl, rfl, rfl, rfl, rfl⟩
      show k = hourStart k
      rw [← hkp, hourStart_idem]
  · intro hr
    rw [aggregate_to_hourly, if_neg (by simpa using hne)]
    simp only [hhead]
    rw [if_pos hr]

/-- Concrete one-hour PT30M batch used to instantiate the aggregation
theorem. -/
def prices30 : List Price :=
  [Price.from_mwh 0 "NL" 31 "PT30M" 0, Price.from_mwh 1800 "NL" 32 "PT30M" 0]

/-- C5 witness: instantiation of `aggregate_to_hourly_spec` at the concrete
PT30M batch. -/
theorem aggregate_to_hourly_spec_witness :
    (aggregate_to_hourly prices30 "NL").Pairwise (fun a b => a.timestamp < b.timestamp) :=
  (((aggregate_to_hourly_spec prices30 "NL" "PT30M" (by decide)
    (by decide)).1 (Or.inr rfl)).1)
